import Mathlib

/-!
Verification development for the MakHosGame core: a shallow embedding of the
Thai-checkers rules engine (board, move generation, move application, winner
detection) and of the minimax search engine (evaluation, alpha-beta search,
bot move selection), with theorems about their behaviour.

Source files embedded: the game-rules module (createInitialBoard,
getValidMoves, getManMoves, getKingMoves, executeMove, checkWinner) and the
search module (evaluateBoard, minimax, getBotMove).
-/

namespace MakHos

/-- Players, as in the source enum; `None` is an unused sentinel. -/
inductive Player where
  | None
  | Red
  | Black
deriving DecidableEq, Repr

/-- Piece ranks (`PieceType` in the source). -/
inductive PieceType where
  | Man
  | King
deriving DecidableEq, Repr

/-- An occupant of a board square. -/
structure Piece where
  player : Player
  type : PieceType
deriving DecidableEq, Repr

/-- A board coordinate; the source uses plain numbers, modelled as `Int`. -/
structure Position where
  row : Int
  col : Int
deriving DecidableEq, Repr

/-- A move; the source field `from` is a Lean keyword, hence `from'`. -/
structure Move where
  from' : Position
  to' : Position
  isCapture : Bool
  capturedPiece : Option Position := none
deriving DecidableEq, Repr

/-- The board: occupancy of each square, indexed by row and column. -/
abbrev BoardState := Int → Int → Option Piece

/-- `isValidPos` from the source (with `BOARD_SIZE = 8` inlined). -/
def isValidPos (r c : Int) : Prop :=
  0 ≤ r ∧ r < 8 ∧ 0 ≤ c ∧ c < 8

instance (r c : Int) : Decidable (isValidPos r c) := by
  unfold isValidPos; exact inferInstance

/-- Reading `board[r][c]`; out-of-range reads give `none` (JS `undefined`). -/
def getSq (board : BoardState) (r c : Int) : Option Piece :=
  if isValidPos r c then board r c else none

/-- Writing `board[r][c] = v` as a functional update. -/
def setSq (board : BoardState) (r c : Int) (v : Option Piece) : BoardState :=
  fun r' c' => if r' = r ∧ c' = c then v else board r' c'

/-- The 64 squares, in the row-major order of the source's nested loops. -/
def allSquares : List (Int × Int) :=
  (List.range 8).flatMap fun r => (List.range 8).map fun c => (Int.ofNat r, Int.ofNat c)

/-- `createInitialBoard`: Men on dark squares of rows 0-1 (Black) and 6-7 (Red). -/
def createInitialBoard : BoardState := fun row col =>
  if isValidPos row col ∧ (row + col) % 2 = 1 then
    if row < 2 then some ⟨Player.Black, PieceType.Man⟩
    else if row > 5 then some ⟨Player.Red, PieceType.Man⟩
    else none
  else none

/-- Forward diagonal directions of a Man (`directions` in `getManMoves`). -/
def manDirs (player : Player) : List (Int × Int) :=
  if player = Player.Red then [(-1, -1), (-1, 1)] else [(1, -1), (1, 1)]

/-- `getManMoves`: one-step forward slides, then forward single jumps. -/
def getManMoves (board : BoardState) (pos : Position) (player : Player) : List Move :=
  let dirs := manDirs player
  let simple := dirs.flatMap fun d =>
    let nr := pos.row + d.1
    let nc := pos.col + d.2
    if isValidPos nr nc ∧ getSq board nr nc = none then
      [{ from' := pos, to' := ⟨nr, nc⟩, isCapture := false }]
    else []
  let caps := dirs.flatMap fun d =>
    let midR := pos.row + d.1
    let midC := pos.col + d.2
    let landR := pos.row + d.1 * 2
    let landC := pos.col + d.2 * 2
    if isValidPos landR landC then
      match getSq board midR midC, getSq board landR landC with
      | some midPiece, none =>
        if midPiece.player ≠ player then
          [{ from' := pos, to' := ⟨landR, landC⟩, isCapture := true,
             capturedPiece := some ⟨midR, midC⟩ }]
        else []
      | _, _ => []
    else []
  simple ++ caps

/-- The four diagonal rays of `getKingMoves`. -/
def kingDirections : List (Int × Int) := [(-1, -1), (-1, 1), (1, -1), (1, 1)]

/-- One iteration of the `getKingMoves` while-loop; `next` performs the
remaining iterations from the next square along the ray. -/
def kingScanBody (board : BoardState) (pos : Position) (player : Player)
    (d : Int × Int) (r c : Int) (foundOpponent : Bool) (opponentPos : Option Position)
    (next : Int → Int → Bool → Option Position → List Move) : List Move :=
  if isValidPos r c then
    match getSq board r c with
    | none =>
      if foundOpponent then
        match opponentPos with
        | some op =>
          -- capture landing found; the source breaks right after pushing it
          [{ from' := pos, to' := ⟨r, c⟩, isCapture := true, capturedPiece := some op }]
        | none => next (r + d.1) (c + d.2) foundOpponent opponentPos
      else
        { from' := pos, to' := ⟨r, c⟩, isCapture := false } ::
          next (r + d.1) (c + d.2) foundOpponent opponentPos
    | some currentPiece =>
      if currentPiece.player = player then []
      else if foundOpponent then []
      else next (r + d.1) (c + d.2) true (some ⟨r, c⟩)
  else []

/-- One ray of the `getKingMoves` while-loop.  The loop advances one diagonal
step per iteration and exits on the first out-of-range square, so from any
on-board start 8 iterations always suffice; `fuel` bounds them. -/
def kingScan (board : BoardState) (pos : Position) (player : Player)
    (d : Int × Int) : Nat → Int → Int → Bool → Option Position → List Move
  | 0, _, _, _, _ => []
  | fuel + 1, r, c, foundOpponent, opponentPos =>
    kingScanBody board pos player d r c foundOpponent opponentPos
      (kingScan board pos player d fuel)

/-- `getKingMoves`: scan each of the four diagonal rays. -/
def getKingMoves (board : BoardState) (pos : Position) (player : Player) : List Move :=
  kingDirections.flatMap fun d =>
    kingScan board pos player d 8 (pos.row + d.1) (pos.col + d.2) false none

/-- `getPieceMoves`: dispatch on the piece's rank. -/
def getPieceMoves (board : BoardState) (pos : Position) (piece : Piece) : List Move :=
  if piece.type = PieceType.Man then getManMoves board pos piece.player
  else getKingMoves board pos piece.player

/-- The move-gathering part of `getValidMoves` (before the capture filter). -/
def gatherMoves (board : BoardState) (player : Player)
    (mustMovePiece : Option Position) : List Move :=
  match mustMovePiece with
  | some mp =>
    match getSq board mp.row mp.col with
    | some piece =>
      if piece.player = player then getPieceMoves board mp piece else []
    | none => []
  | none =>
    allSquares.flatMap fun s =>
      match getSq board s.1 s.2 with
      | some piece =>
        if piece.player = player then getPieceMoves board ⟨s.1, s.2⟩ piece else []
      | none => []

/-- `getValidMoves`: gather, then restrict to captures when any exist. -/
def getValidMoves (board : BoardState) (player : Player)
    (mustMovePiece : Option Position) : List Move :=
  let moves := gatherMoves board player mustMovePiece
  let captureMoves := moves.filter fun m => m.isCapture
  if captureMoves.length > 0 then captureMoves else moves

/-- The promotion test of `executeMove`: a Man reaching its opponent's back
row (row 0 for Red, row `BOARD_SIZE - 1 = 7` for Black). -/
def promoFlag (move : Move) (piece : Piece) : Bool :=
  decide (piece.type = PieceType.Man) &&
    ((decide (piece.player = Player.Red) && decide (move.to'.row = 0)) ||
     (decide (piece.player = Player.Black) && decide (move.to'.row = 7)))

/-- In the source, promotion mutates the moved piece object, which is the
object stored at `move.to` — unless the writes `newBoard[move.from] = null` or
`newBoard[move.capturedPiece] = null` have since overwritten that slot.  This
predicate says the moved piece is still at `move.to` when promotion happens. -/
def aliasAtTo (move : Move) : Bool :=
  !(decide (move.from' = move.to') ||
    (move.isCapture && decide (move.capturedPiece = some move.to')))

/-- The board produced by `executeMove` once the moved piece is known: place
the piece at `to`, clear `from`, clear the captured square, then promote. -/
def postBoard (board : BoardState) (move : Move) (piece : Piece) : BoardState :=
  let b1 := setSq board move.to'.row move.to'.col (some piece)
  let b2 := setSq b1 move.from'.row move.from'.col none
  let b3 :=
    match move.isCapture, move.capturedPiece with
    | true, some cp => setSq b2 cp.row cp.col none
    | _, _ => b2
  if promoFlag move piece && aliasAtTo move then
    setSq b3 move.to'.row move.to'.col (some ⟨piece.player, PieceType.King⟩)
  else b3

/-- `executeMove`: `none` models the source's thrown error when `move.from`
holds no piece; otherwise the new board and the promotion flag. -/
def executeMove (currentBoard : BoardState) (move : Move) :
    Option (BoardState × Bool) :=
  match getSq currentBoard move.from'.row move.from'.col with
  | none => none
  | some piece => some (postBoard currentBoard move piece, promoFlag move piece)

/-- Red piece count of `checkWinner`. -/
def redCount (board : BoardState) : Nat :=
  allSquares.countP fun s =>
    decide ((getSq board s.1 s.2).map Piece.player = some Player.Red)

/-- Black piece count of `checkWinner`. -/
def blackCount (board : BoardState) : Nat :=
  allSquares.countP fun s =>
    decide ((getSq board s.1 s.2).map Piece.player = some Player.Black)

/-- `checkWinner`: eliminated first (Red checked first), then stalemated
(Red checked first). -/
def checkWinner (board : BoardState) : Option Player :=
  if redCount board = 0 then some Player.Black
  else if blackCount board = 0 then some Player.Red
  else if (getValidMoves board Player.Red none).length = 0 then some Player.Black
  else if (getValidMoves board Player.Black none).length = 0 then some Player.Red
  else none

/-- Contribution of one square to `evaluateBoard`'s material/positional sum. -/
def squareScore (board : BoardState) (player : Player) (s : Int × Int) : Int :=
  match getSq board s.1 s.2 with
  | none => 0
  | some piece =>
    let value : Int := if piece.type = PieceType.King then 300 else 100
    if piece.player = player then
      value +
        (if piece.type = PieceType.Man then
          (if player = Player.Red then 7 - s.1 else s.1) * 2
        else 0)
    else
      -value -
        (if piece.type = PieceType.Man then
          (if piece.player = Player.Red then 7 - s.1 else s.1) * 2
        else 0)

/-- `evaluateBoard`: win sentinels, else the signed material/positional sum. -/
def evaluateBoard (board : BoardState) (player : Player) : Int :=
  match checkWinner board with
  | some winner => if winner = player then 10000 else -10000
  | none => (allSquares.map (squareScore board player)).sum

/-- JS numbers as used by the search: finite values plus the two infinities
(`-Infinity` / `Infinity`) used as alpha-beta bounds. -/
inductive Ext where
  | neginf
  | fin (z : Int)
  | posinf
deriving DecidableEq, Repr

/-- The `<=` of JS numbers, restricted to the values the search uses. -/
def Ext.le : Ext → Ext → Bool
  | .neginf, _ => true
  | _, .posinf => true
  | .fin a, .fin b => decide (a ≤ b)
  | .posinf, _ => false
  | .fin _, .neginf => false

/-- `Math.max` on those values. -/
def Ext.max (a b : Ext) : Ext := if Ext.le a b then b else a

/-- `Math.min` on those values. -/
def Ext.min (a b : Ext) : Ext := if Ext.le a b then a else b

/-- JS strict `>`: `a > b` iff not `a <= b`. -/
def Ext.gt (a b : Ext) : Bool := !(Ext.le a b)

/-- Opponent of the bot's identity, as computed inside `minimax`. -/
def oppPlayer (player : Player) : Player :=
  if player = Player.Red then Player.Black else Player.Red

/-- The for-loop of `minimax`, for both the maximizing and the minimizing
branch (`isMax` selects which).  `rec` is the recursive call at the next fuel
level; `acc` is the running `maxEval`/`minEval`; the loop stops early when
`beta <= alpha` after an update, as in the source. -/
def mmLoop (rec : BoardState → Nat → Ext → Ext → Bool → Option Position → Option Ext)
    (board : BoardState) (depth : Nat) (currentPlayer : Player) (isMax : Bool) :
    List Move → Ext → Ext → Ext → Option Ext
  | [], _, _, acc => some acc
  | m :: rest, alpha, beta, acc =>
    match executeMove board m with
    | none => none
    | some (newBoard, promoted) =>
      let chain := m.isCapture && !promoted &&
        ((getValidMoves newBoard currentPlayer (some m.to')).any fun n => n.isCapture)
      let evalScore :=
        if chain then rec newBoard depth alpha beta isMax (some m.to')
        else rec newBoard (depth - 1) alpha beta (!isMax) none
      match evalScore with
      | none => none
      | some v =>
        if isMax then
          let acc' := Ext.max acc v
          let alpha' := Ext.max alpha v
          if Ext.le beta alpha' then some acc'
          else mmLoop rec board depth currentPlayer isMax rest alpha' beta acc'
        else
          let acc' := Ext.min acc v
          let beta' := Ext.min beta v
          if Ext.le beta' alpha then some acc'
          else mmLoop rec board depth currentPlayer isMax rest alpha beta' acc'

/-- `minimax` with alpha-beta pruning.  `player` is the bot's identity, fixed
through the recursion.  The source recurses directly; here `fuel` bounds the
recursion depth and `none` means the bound was hit (or `executeMove` failed,
which cannot happen on generated moves); the termination theorem shows any
`fuel > depth + pieceCount board` yields `some`. -/
def minimaxF (player : Player) :
    Nat → BoardState → Nat → Ext → Ext → Bool → Option Position → Option Ext
  | 0, _, _, _, _, _, _ => none
  | fuel + 1, board, depth, alpha, beta, maximizingPlayer, activePiece =>
    let winner := checkWinner board
    if depth = 0 ∨ winner.isSome then some (Ext.fin (evaluateBoard board player))
    else
      let currentPlayer := if maximizingPlayer then player else oppPlayer player
      let validMoves := getValidMoves board currentPlayer activePiece
      if validMoves.length = 0 then
        some (if maximizingPlayer then Ext.fin (-10000) else Ext.fin 10000)
      else
        mmLoop (minimaxF player fuel) board depth currentPlayer maximizingPlayer
          validMoves alpha beta
          (if maximizingPlayer then Ext.neginf else Ext.posinf)

/-- Number of occupied squares; the well-founded measure for chain captures. -/
def pieceCount (board : BoardState) : Nat :=
  allSquares.countP fun s => (getSq board s.1 s.2).isSome

/-- The random draws consumed by `getBotMove`: `pickFloor n` models
`Math.floor(Math.random() * n)` (always `< n` for `n > 0`), and `shuffle`
models `validMoves.sort(() => Math.random() - 0.5)`, an arbitrary reordering. -/
structure BotRng where
  pickFloor : Nat → Nat
  pickLt : ∀ n, 0 < n → pickFloor n < n
  shuffle : List Move → List Move

/-- The root loop of `getBotMove` over the shuffled moves, tracking the best
move and score so far.  Fuel for the inner `minimax` calls is chosen large
enough by the termination bound. -/
def botLoop (board : BoardState) (botPlayer : Player) (depth : Nat) :
    List Move → Move → Ext → Option Move
  | [], bestMove, _ => some bestMove
  | m :: rest, bestMove, maxEval =>
    match executeMove board m with
    | none => none
    | some (newBoard, promoted) =>
      let chain := m.isCapture && !promoted &&
        ((getValidMoves newBoard botPlayer (some m.to')).any fun n => n.isCapture)
      let fuel := depth + pieceCount newBoard + 1
      let evalScore :=
        if chain then
          minimaxF botPlayer fuel newBoard depth Ext.neginf Ext.posinf true (some m.to')
        else
          minimaxF botPlayer fuel newBoard (depth - 1) Ext.neginf Ext.posinf false none
      match evalScore with
      | none => none
      | some v =>
        if Ext.gt v maxEval then botLoop board botPlayer depth rest m v
        else botLoop board botPlayer depth rest bestMove maxEval

/-- Difficulty tiers. -/
inductive Difficulty where
  | Easy
  | Medium
  | Hard
deriving DecidableEq, Repr

/-- `getBotMove`: Easy picks a random legal move; Medium/Hard run minimax at
depth 2/4 over the shuffled moves, starting from `bestMove = validMoves[0]`
(captured before the in-place shuffle) and `maxEval = -Infinity`. -/
def getBotMove (board : BoardState) (botPlayer : Player)
    (difficulty : Difficulty) (activePiece : Option Position)
    (rng : BotRng) : Option Move :=
  let validMoves := getValidMoves board botPlayer activePiece
  match validMoves with
  | [] => none
  | first :: _ =>
    if difficulty = Difficulty.Easy then
      validMoves[rng.pickFloor validMoves.length]?
    else
      let depth := if difficulty = Difficulty.Medium then 2 else 4
      let shuffledMoves := rng.shuffle validMoves
      botLoop board botPlayer depth shuffledMoves first Ext.neginf

/-- A heap of board snapshots, for stating that `executeMove` writes only to
a fresh copy and never to its argument. -/
def boardAt (h : List BoardState) (i : Nat) : BoardState :=
  (h[i]?).getD fun _ _ => none

/-- Writing one square of the board stored in heap slot `i`. -/
def heapSetSq (h : List BoardState) (i : Nat) (r c : Int) (v : Option Piece) :
    List BoardState :=
  h.set i (setSq (boardAt h i) r c v)

/-- The heap after `executeMove`'s writes, all targeting the fresh slot
`h.length` that holds the deep copy of the source board (mirrors
`postBoard`). -/
def postHeap (h : List BoardState) (src : Nat) (m : Move) (piece : Piece) :
    List BoardState :=
  let nid := h.length
  let h0 := h ++ [boardAt h src]
  let h1 := heapSetSq h0 nid m.to'.row m.to'.col (some piece)
  let h2 := heapSetSq h1 nid m.from'.row m.from'.col none
  let h3 :=
    match m.isCapture, m.capturedPiece with
    | true, some cp => heapSetSq h2 nid cp.row cp.col none
    | _, _ => h2
  if promoFlag m piece && aliasAtTo m then
    heapSetSq h3 nid m.to'.row m.to'.col (some ⟨piece.player, PieceType.King⟩)
  else h3

/-- `executeMove` against the heap: `newBoard = deep copy` lands in a fresh
slot, the piece is looked up on the copy, and every square write targets the
fresh slot only. -/
def executeMoveH (h : List BoardState) (src : Nat) (move : Move) :
    Option (List BoardState × Nat × Bool) :=
  match getSq (boardAt (h ++ [boardAt h src]) h.length)
      move.from'.row move.from'.col with
  | none => none
  | some piece => some (postHeap h src move piece, h.length, promoFlag move piece)

/-! ### Basic board lemmas -/

lemma getSq_setSq_self (b : BoardState) (r c : Int) (v : Option Piece)
    (h : isValidPos r c) : getSq (setSq b r c v) r c = v := by
  simp [getSq, setSq, h]

lemma getSq_setSq_ne (b : BoardState) (r c r' c' : Int) (v : Option Piece)
    (h : ¬(r' = r ∧ c' = c)) : getSq (setSq b r c v) r' c' = getSq b r' c' := by
  unfold getSq setSq
  rw [if_neg h]

lemma mem_allSquares (r c : Int) : (r, c) ∈ allSquares ↔ isValidPos r c := by
  unfold allSquares isValidPos
  rw [List.mem_flatMap]
  constructor
  · rintro ⟨r0, hr0, hm⟩
    rw [List.mem_map] at hm
    rcases hm with ⟨c0, hc0, heq⟩
    rw [List.mem_range] at hr0 hc0
    cases heq
    simp only [Int.ofNat_eq_coe]
    omega
  · rintro ⟨h1, h2, h3, h4⟩
    refine ⟨r.toNat, List.mem_range.mpr (by omega), ?_⟩
    rw [List.mem_map]
    refine ⟨c.toNat, List.mem_range.mpr (by omega), ?_⟩
    simp only [Int.ofNat_eq_coe, Int.toNat_of_nonneg h1, Int.toNat_of_nonneg h3]

lemma allSquares_nodup : allSquares.Nodup := by decide

lemma countP_update {α : Type} (l : List α) (f g : α → Bool) (a : α)
    (hfg : ∀ x ∈ l, x ≠ a → f x = g x) (hnd : l.Nodup) (ha : a ∈ l) :
    l.countP f + (if g a then 1 else 0) = l.countP g + (if f a then 1 else 0) := by
  induction l with
  | nil => cases ha
  | cons x t ih =>
    rcases List.mem_cons.mp ha with heq | hat
    · subst heq
      have hnot : a ∉ t := (List.nodup_cons.mp hnd).1
      have hct : t.countP f = t.countP g := by
        refine List.countP_congr fun y hy => ?_
        rw [hfg y (List.mem_cons_of_mem _ hy) (fun e => hnot (e ▸ hy))]
      rw [List.countP_cons, List.countP_cons, hct]
      omega
    · have hxa : x ≠ a := fun e => (List.nodup_cons.mp hnd).1 (e.symm ▸ hat)
      have hfx : f x = g x := hfg x (List.mem_cons_self x t) hxa
      have hrec := ih (fun y hy hya => hfg y (List.mem_cons_of_mem _ hy) hya)
        (List.nodup_cons.mp hnd).2 hat
      rw [List.countP_cons, List.countP_cons, hfx]
      omega

lemma pieceCount_setSq (b : BoardState) (r c : Int) (v : Option Piece)
    (h : isValidPos r c) :
    pieceCount (setSq b r c v) + (if (getSq b r c).isSome then 1 else 0)
      = pieceCount b + (if v.isSome then 1 else 0) := by
  have hmem : (r, c) ∈ allSquares := (mem_allSquares r c).mpr h
  have key := countP_update allSquares
    (fun s => (getSq (setSq b r c v) s.1 s.2).isSome)
    (fun s => (getSq b s.1 s.2).isSome) (r, c)
    (fun s _ hne => by
      have hne' : ¬(s.1 = r ∧ s.2 = c) := by
        intro ⟨e1, e2⟩
        exact hne (by cases s; simp_all)
      show (getSq (setSq b r c v) s.1 s.2).isSome = (getSq b s.1 s.2).isSome
      rw [getSq_setSq_ne b r c s.1 s.2 v hne'])
    allSquares_nodup hmem
  simpa [pieceCount, getSq_setSq_self b r c v h] using key

/-! ### Soundness of generated moves -/

lemma getSq_isSome_valid {b : BoardState} {r c : Int} {q : Piece}
    (h : getSq b r c = some q) : isValidPos r c := by
  unfold getSq at h
  by_cases hv : isValidPos r c
  · exact hv
  · rw [if_neg hv] at h; cases h

/-- Structural facts about a generated move: the source square holds the
moving player's piece, the landing square is on the board and empty, a
capture names an occupied enemy square, and a non-capture names nothing. -/
def MoveOK (b : BoardState) (p : Player) (m : Move) : Prop :=
  (∃ q, getSq b m.from'.row m.from'.col = some q ∧ q.player = p) ∧
  isValidPos m.to'.row m.to'.col ∧
  getSq b m.to'.row m.to'.col = none ∧
  (m.isCapture = true →
    ∃ cp q, m.capturedPiece = some cp ∧ getSq b cp.row cp.col = some q ∧ q.player ≠ p) ∧
  (m.isCapture = false → m.capturedPiece = none)

lemma getManMoves_ok (b : BoardState) (pos : Position) (p : Player)
    (hpos : ∃ pc, getSq b pos.row pos.col = some pc ∧ pc.player = p) :
    ∀ m ∈ getManMoves b pos p, m.from' = pos ∧ MoveOK b p m := by
  intro m hm
  simp only [getManMoves, List.mem_append] at hm
  rcases hm with hm | hm
  · rcases List.mem_flatMap.mp hm with ⟨d, _, hmd⟩
    split at hmd
    · next hcond =>
      rcases List.mem_singleton.mp hmd with rfl
      refine ⟨rfl, hpos, hcond.1, hcond.2, ?_, fun _ => rfl⟩
      intro h
      simp at h
    · cases hmd
  · rcases List.mem_flatMap.mp hm with ⟨d, _, hmd⟩
    split at hmd
    · next hland =>
      split at hmd
      · next midPiece hmid hlandsq =>
        split at hmd
        · next henemy =>
          rcases List.mem_singleton.mp hmd with rfl
          refine ⟨rfl, hpos, hland, hlandsq,
            fun _ => ⟨_, midPiece, rfl, hmid, henemy⟩, ?_⟩
          intro h
          simp at h
        · cases hmd
      · cases hmd
    · cases hmd

lemma kingScan_ok (b : BoardState) (p : Player) (pos : Position) (d : Int × Int)
    (hpos : ∃ pc, getSq b pos.row pos.col = some pc ∧ pc.player = p) :
    ∀ fuel r c (found : Bool) (opp : Option Position),
      (found = true →
        ∃ op q, opp = some op ∧ getSq b op.row op.col = some q ∧ q.player ≠ p) →
      ∀ m ∈ kingScan b pos p d fuel r c found opp, m.from' = pos ∧ MoveOK b p m := by
  intro fuel
  induction fuel with
  | zero =>
    intro r c found opp _ m hm
    cases hm
  | succ fuel ih =>
    intro r c found opp hfound m hm
    rw [kingScan] at hm
    unfold kingScanBody at hm
    split at hm
    · next hvalid =>
      split at hm
      · next hempty =>
        split at hm
        · next hfoundT =>
          split at hm
          · rcases List.mem_singleton.mp hm with rfl
            rcases hfound hfoundT with ⟨op', q, heq, hsq, hqp⟩
            injection heq with heq
            cases heq
            refine ⟨rfl, hpos, hvalid, hempty,
              fun _ => ⟨_, q, rfl, hsq, hqp⟩, ?_⟩
            intro h
            simp at h
          · exact ih _ _ _ _ hfound m hm
        · rcases List.mem_cons.mp hm with rfl | hm'
          · refine ⟨rfl, hpos, hvalid, hempty, ?_, fun _ => rfl⟩
            intro h
            simp at h
          · exact ih _ _ _ _ hfound m hm'
      · next currentPiece hcur =>
        split at hm
        · cases hm
        · split at hm
          · cases hm
          · next hnotp _ =>
            refine ih _ _ _ _ ?_ m hm
            intro _
            exact ⟨⟨r, c⟩, currentPiece, rfl, hcur, hnotp⟩
    · cases hm

lemma getKingMoves_ok (b : BoardState) (pos : Position) (p : Player)
    (hpos : ∃ pc, getSq b pos.row pos.col = some pc ∧ pc.player = p) :
    ∀ m ∈ getKingMoves b pos p, m.from' = pos ∧ MoveOK b p m := by
  intro m hm
  rcases List.mem_flatMap.mp hm with ⟨d, _, hmd⟩
  exact kingScan_ok b p pos d hpos 8 _ _ false none (fun h => by cases h) m hmd

lemma getPieceMoves_ok (b : BoardState) (pos : Position) (piece : Piece) (p : Player)
    (hsq : getSq b pos.row pos.col = some piece) (hp : piece.player = p) :
    ∀ m ∈ getPieceMoves b pos piece, m.from' = pos ∧ MoveOK b p m := by
  intro m hm
  have hpos : ∃ pc, getSq b pos.row pos.col = some pc ∧ pc.player = p := ⟨piece, hsq, hp⟩
  unfold getPieceMoves at hm
  split at hm
  · exact getManMoves_ok b pos p (hp ▸ hpos) m (hp ▸ hm)
  · exact getKingMoves_ok b pos p (hp ▸ hpos) m (hp ▸ hm)

lemma gatherMoves_ok (b : BoardState) (p : Player) (ap : Option Position) :
    ∀ m ∈ gatherMoves b p ap, MoveOK b p m := by
  intro m hm
  unfold gatherMoves at hm
  match ap with
  | some mp =>
    simp only at hm
    split at hm
    · next piece hsq =>
      split at hm
      · next hp => exact (getPieceMoves_ok b mp piece p hsq hp m hm).2
      · cases hm
    · cases hm
  | none =>
    simp only at hm
    rcases List.mem_flatMap.mp hm with ⟨s, _, hms⟩
    split at hms
    · next piece hsq =>
      split at hms
      · next hp => exact (getPieceMoves_ok b ⟨s.1, s.2⟩ piece p hsq hp m hms).2
      · cases hms
    · cases hms

lemma getValidMoves_sub (b : BoardState) (p : Player) (ap : Option Position) :
    ∀ m ∈ getValidMoves b p ap, m ∈ gatherMoves b p ap := by
  intro m hm
  unfold getValidMoves at hm
  simp only at hm
  split at hm
  · exact (List.mem_filter.mp hm).1
  · exact hm

lemma getValidMoves_ok (b : BoardState) (p : Player) (ap : Option Position) :
    ∀ m ∈ getValidMoves b p ap, MoveOK b p m :=
  fun m hm => gatherMoves_ok b p ap m (getValidMoves_sub b p ap m hm)

/-! ### Effects of executeMove -/

lemma executeMove_some {b : BoardState} {m : Move} {piece : Piece}
    (hq : getSq b m.from'.row m.from'.col = some piece) :
    executeMove b m = some (postBoard b m piece, promoFlag m piece) := by
  unfold executeMove
  rw [hq]

lemma pieceCount_setSq_add {b : BoardState} {r c : Int} {q : Piece}
    (hv : isValidPos r c) (h : getSq b r c = none) :
    pieceCount (setSq b r c (some q)) = pieceCount b + 1 := by
  have key := pieceCount_setSq b r c (some q) hv
  rw [h] at key
  simpa using key

lemma pieceCount_setSq_del {b : BoardState} {r c : Int} {q : Piece}
    (hv : isValidPos r c) (h : getSq b r c = some q) :
    pieceCount (setSq b r c none) + 1 = pieceCount b := by
  have key := pieceCount_setSq b r c none hv
  rw [h] at key
  simpa using key

lemma pieceCount_setSq_keep {b : BoardState} {r c : Int} {q q' : Piece}
    (hv : isValidPos r c) (h : getSq b r c = some q) :
    pieceCount (setSq b r c (some q')) = pieceCount b := by
  have key := pieceCount_setSq b r c (some q') hv
  rw [h] at key
  simpa using key

lemma pieceCount_postBoard (b : BoardState) (p : Player) (m : Move)
    (hok : MoveOK b p m) :
    ∃ piece, getSq b m.from'.row m.from'.col = some piece ∧
      pieceCount (postBoard b m piece) ≤ pieceCount b ∧
      (m.isCapture = true → pieceCount (postBoard b m piece) + 1 = pieceCount b) := by
  obtain ⟨⟨piece, hq, hpl⟩, hvto, hto, hcap, hnocap⟩ := hok
  refine ⟨piece, hq, ?_⟩
  have hvfrom : isValidPos m.from'.row m.from'.col := getSq_isSome_valid hq
  have hne_ft : ¬(m.from'.row = m.to'.row ∧ m.from'.col = m.to'.col) := by
    rintro ⟨e1, e2⟩
    rw [e1, e2, hto] at hq
    cases hq
  have h1 : pieceCount (setSq b m.to'.row m.to'.col (some piece)) = pieceCount b + 1 :=
    pieceCount_setSq_add hvto hto
  have hb1from :
      getSq (setSq b m.to'.row m.to'.col (some piece)) m.from'.row m.from'.col
        = some piece := by
    rw [getSq_setSq_ne _ _ _ _ _ _ hne_ft]
    exact hq
  have h2 :
      pieceCount (setSq (setSq b m.to'.row m.to'.col (some piece))
        m.from'.row m.from'.col none) = pieceCount b := by
    have := pieceCount_setSq_del hvfrom hb1from
    omega
  cases hmc : m.isCapture with
  | false =>
    have hcp := hnocap hmc
    constructor
    · unfold postBoard
      simp only [hmc, hcp]
      split
      · next hpa =>
        have hb2to :
            getSq (setSq (setSq b m.to'.row m.to'.col (some piece))
              m.from'.row m.from'.col none) m.to'.row m.to'.col = some piece := by
          rw [getSq_setSq_ne _ _ _ _ _ _ (fun e => hne_ft ⟨e.1.symm, e.2.symm⟩)]
          exact getSq_setSq_self b m.to'.row m.to'.col (some piece) hvto
        rw [pieceCount_setSq_keep hvto hb2to]
        omega
      · omega
    · intro h
      simp at h
  | true =>
    obtain ⟨cp, en, hcp, hen, henp⟩ := hcap hmc
    have hvcp : isValidPos cp.row cp.col := getSq_isSome_valid hen
    have hne_cf : ¬(cp.row = m.from'.row ∧ cp.col = m.from'.col) := by
      rintro ⟨e1, e2⟩
      rw [e1, e2, hq] at hen
      cases hen
      exact henp hpl
    have hne_ct : ¬(cp.row = m.to'.row ∧ cp.col = m.to'.col) := by
      rintro ⟨e1, e2⟩
      rw [e1, e2, hto] at hen
      cases hen
    have hb2cp :
        getSq (setSq (setSq b m.to'.row m.to'.col (some piece))
          m.from'.row m.from'.col none) cp.row cp.col = some en := by
      rw [getSq_setSq_ne _ _ _ _ _ _ hne_cf,
        getSq_setSq_ne _ _ _ _ _ _ hne_ct]
      exact hen
    have h3 :
        pieceCount (setSq (setSq (setSq b m.to'.row m.to'.col (some piece))
          m.from'.row m.from'.col none) cp.row cp.col none) + 1 = pieceCount b := by
      have := pieceCount_setSq_del hvcp hb2cp
      omega
    have hkey :
        pieceCount (postBoard b m piece) + 1 = pieceCount b := by
      unfold postBoard
      simp only [hmc, hcp]
      split
      · next hpa =>
        have hb3to :
            getSq (setSq (setSq (setSq b m.to'.row m.to'.col (some piece))
              m.from'.row m.from'.col none) cp.row cp.col none)
              m.to'.row m.to'.col = some piece := by
          rw [getSq_setSq_ne _ _ _ _ _ _ (fun e => hne_ct ⟨e.1.symm, e.2.symm⟩),
            getSq_setSq_ne _ _ _ _ _ _ (fun e => hne_ft ⟨e.1.symm, e.2.symm⟩)]
          exact getSq_setSq_self b m.to'.row m.to'.col (some piece) hvto
        rw [pieceCount_setSq_keep hvto hb3to]
        exact h3
      · exact h3
    constructor
    · omega
    · intro _
      exact hkey

/-! ### Concrete test boards -/

/-- The spec's end-to-end scenario board exactly as stated: a single Black Man
at (3,2) and a single Red Man at (5,3). -/
def scenarioBoard : BoardState := fun r c =>
  if r = 3 ∧ c = 2 then some ⟨Player.Black, PieceType.Man⟩
  else if r = 5 ∧ c = 3 then some ⟨Player.Red, PieceType.Man⟩
  else none

/-- The scenario with the Red Man moved to (4,3), diagonally adjacent to the
Black Man, where the claimed jump over (3,2) to (2,1) is actually possible. -/
def scenarioBoardFixed : BoardState := fun r c =>
  if r = 3 ∧ c = 2 then some ⟨Player.Black, PieceType.Man⟩
  else if r = 4 ∧ c = 3 then some ⟨Player.Red, PieceType.Man⟩
  else none

/-- A Red king at (5,0) facing a Black Man at (2,3): one enemy at distance 3
along the up-right ray, with the two empty squares (1,4) and (0,5) beyond. -/
def flyingKingBoard : BoardState := fun r c =>
  if r = 5 ∧ c = 0 then some ⟨Player.Red, PieceType.King⟩
  else if r = 2 ∧ c = 3 then some ⟨Player.Black, PieceType.Man⟩
  else none

/-- Both players still have a piece but neither can move: a Red Man stuck in
the corner (0,0) and a Black Man stuck in the corner (7,7). -/
def doubleStalemateBoard : BoardState := fun r c =>
  if r = 0 ∧ c = 0 then some ⟨Player.Red, PieceType.Man⟩
  else if r = 7 ∧ c = 7 then some ⟨Player.Black, PieceType.Man⟩
  else none

/-! ### C2: mandatory capture is global -/

/-- C2: for every board, player and active-piece restriction, if
`getValidMoves` returns any capture move then every returned move is a
capture — the capture filter is applied once, over the whole gathered list,
so a piece with only sliding moves contributes nothing when any piece of the
player can capture. -/
theorem mandatory_capture_global (b : BoardState) (p : Player) (ap : Option Position)
    (h : ∃ m ∈ getValidMoves b p ap, m.isCapture = true) :
    ∀ m ∈ getValidMoves b p ap, m.isCapture = true := by
  obtain ⟨m0, hm0, hc0⟩ := h
  intro m hm
  simp only [getValidMoves] at hm0 hm
  by_cases hlen : (List.filter (fun m => m.isCapture) (gatherMoves b p ap)).length > 0
  · rw [if_pos hlen] at hm
    exact (List.mem_filter.mp hm).2
  · exfalso
    rw [if_neg hlen] at hm0
    exact hlen (List.length_pos_of_mem (List.mem_filter.mpr ⟨hm0, hc0⟩))

/-- Witness for C2 on a concrete board where a capture is available. -/
theorem mandatory_capture_global_witness :
    (∃ m ∈ getValidMoves scenarioBoardFixed Player.Red none, m.isCapture = true) ∧
    ∀ m ∈ getValidMoves scenarioBoardFixed Player.Red none, m.isCapture = true :=
  ⟨by decide, mandatory_capture_global scenarioBoardFixed Player.Red none (by decide)⟩

/-! ### C3: applyMove fails exactly on an empty source square -/

/-- C3: for every board and in-bounds move, `executeMove` signals a hard
failure (modelled as `none`) exactly when the source square holds no piece;
with an occupied source it returns a board and promotion flag normally. -/
theorem applyMove_fails_iff_source_empty (b : BoardState) (m : Move)
    (hf : isValidPos m.from'.row m.from'.col)
    (ht : isValidPos m.to'.row m.to'.col)
    (hc : ∀ cp, m.capturedPiece = some cp → isValidPos cp.row cp.col) :
    executeMove b m = none ↔ getSq b m.from'.row m.from'.col = none := by
  unfold executeMove
  cases h : getSq b m.from'.row m.from'.col with
  | none => simp
  | some piece => simp

/-- Witness for C3 at a concrete board and in-bounds move. -/
theorem applyMove_fails_iff_source_empty_witness :
    isValidPos 5 3 ∧ isValidPos 4 2 ∧
    (executeMove scenarioBoard ⟨⟨5, 3⟩, ⟨4, 2⟩, false, none⟩ = none ↔
      getSq scenarioBoard 5 3 = none) :=
  ⟨by decide, by decide,
    applyMove_fails_iff_source_empty scenarioBoard ⟨⟨5, 3⟩, ⟨4, 2⟩, false, none⟩
      (by decide) (by decide) (fun cp h => nomatch h)⟩

/-! ### C7: the end-to-end scenario -/

/-- C7 counterexample: on the board with the Black Man at (3,2) and the Red
Man at (5,3), `getValidMoves` for Red returns the two forward slides, and the
claimed capture landing at (2,1) over (3,2) is not among the moves (it is not
even geometrically reachable from (5,3)). -/
theorem scenario_claim_counterexample :
    getValidMoves scenarioBoard Player.Red none =
      [⟨⟨5, 3⟩, ⟨4, 2⟩, false, none⟩, ⟨⟨5, 3⟩, ⟨4, 4⟩, false, none⟩] ∧
    (⟨⟨5, 3⟩, ⟨2, 1⟩, true, some ⟨3, 2⟩⟩ : Move) ∉
      getValidMoves scenarioBoard Player.Red none := by
  constructor
  · decide
  · decide

/-- C7 amended: with the Red Man at (4,3) instead of (5,3), `getValidMoves`
returns exactly the one mandatory capture landing at (2,1) with captured
piece (3,2), and no sliding moves. -/
theorem scenario_amended :
    getValidMoves scenarioBoardFixed Player.Red none =
      [⟨⟨4, 3⟩, ⟨2, 1⟩, true, some ⟨3, 2⟩⟩] := by
  decide

/-! ### C10: double stalemate goes to Black -/

/-- C10: whenever both players still have pieces but neither has a legal
move, `checkWinner` returns Black, because Red's move list is tested first. -/
theorem checkWinner_double_stalemate (b : BoardState)
    (hr : redCount b ≠ 0) (hb : blackCount b ≠ 0)
    (hrm : getValidMoves b Player.Red none = [])
    (hbm : getValidMoves b Player.Black none = []) :
    checkWinner b = some Player.Black := by
  unfold checkWinner
  rw [if_neg hr, if_neg hb, if_pos (by rw [hrm]; rfl)]

/-- Witness for C10: a board where both sides have a stuck corner Man. -/
theorem checkWinner_double_stalemate_witness :
    redCount doubleStalemateBoard ≠ 0 ∧ blackCount doubleStalemateBoard ≠ 0 ∧
    getValidMoves doubleStalemateBoard Player.Red none = [] ∧
    getValidMoves doubleStalemateBoard Player.Black none = [] ∧
    checkWinner doubleStalemateBoard = some Player.Black :=
  ⟨by decide, by decide, by decide, by decide,
    checkWinner_double_stalemate doubleStalemateBoard
      (by decide) (by decide) (by decide) (by decide)⟩

/-! ### C5: evaluation antisymmetry -/

/-- Owner sanity for a square: an occupant is owned by Red or Black, never by
the unused `None` sentinel (the spec's data model for `Piece`). -/
def ownerOK (o : Option Piece) : Bool :=
  match o with
  | none => true
  | some pc => decide (pc.player ≠ Player.None)

lemma squareScore_neg (b : BoardState) (s : Int × Int)
    (h : ownerOK (getSq b s.1 s.2) = true) :
    squareScore b Player.Red s = -squareScore b Player.Black s := by
  unfold squareScore
  unfold ownerOK at h
  cases hsq : getSq b s.1 s.2 with
  | none => simp
  | some pc =>
    rw [hsq] at h
    cases hp : pc.player with
    | None => simp [hp] at h
    | Red => cases pc.type <;> simp [hp] <;> ring
    | Black => cases pc.type <;> simp [hp] <;> ring

lemma sum_map_neg {α : Type} (l : List α) (f g : α → Int)
    (h : ∀ s ∈ l, f s = -g s) : (l.map f).sum = -(l.map g).sum := by
  induction l with
  | nil => simp
  | cons a t ih =>
    simp only [List.map_cons, List.sum_cons]
    rw [h a (List.mem_cons_self a t), ih (fun s hs => h s (List.mem_cons_of_mem a hs))]
    ring

/-- C5: on every non-terminal board (occupants owned by Red or Black, per the
data model), the material-plus-positional evaluation negates when the
evaluating player's perspective is swapped. -/
theorem evaluate_antisymmetric (b : BoardState)
    (hterm : checkWinner b = none)
    (hown : ∀ s ∈ allSquares, ownerOK (getSq b s.1 s.2) = true) :
    evaluateBoard b Player.Red = -evaluateBoard b Player.Black := by
  unfold evaluateBoard
  rw [hterm]
  exact sum_map_neg allSquares _ _ (fun s hs => squareScore_neg b s (hown s hs))

/-- Witness for C5 on the (non-terminal) initial board. -/
theorem evaluate_antisymmetric_witness :
    checkWinner createInitialBoard = none ∧
    (∀ s ∈ allSquares, ownerOK (getSq createInitialBoard s.1 s.2) = true) ∧
    evaluateBoard createInitialBoard Player.Red =
      -evaluateBoard createInitialBoard Player.Black :=
  ⟨by decide, by decide,
    evaluate_antisymmetric createInitialBoard (by decide) (by decide)⟩

/-! ### C6: minimax termination -/

lemma mmLoop_isSome (player : Player) (fuel : Nat) (board : BoardState) (depth : Nat)
    (cur : Player) (isMax : Bool)
    (hdep : depth ≠ 0)
    (hfuel : depth + pieceCount board ≤ fuel)
    (IH : ∀ b' d' (a b2 : Ext) (mx : Bool) ap, d' + pieceCount b' < fuel →
      (minimaxF player fuel b' d' a b2 mx ap).isSome = true) :
    ∀ (moves : List Move), (∀ m ∈ moves, MoveOK board cur m) →
      ∀ (alpha beta acc : Ext),
        (mmLoop (minimaxF player fuel) board depth cur isMax
          moves alpha beta acc).isSome = true := by
  intro moves
  induction moves with
  | nil =>
    intro _ alpha beta acc
    rw [mmLoop]
    rfl
  | cons m rest ih =>
    intro hok alpha beta acc
    have hokm := hok m (List.mem_cons_self m rest)
    obtain ⟨piece, hq, hle, hcapdec⟩ := pieceCount_postBoard board cur m hokm
    rw [mmLoop, executeMove_some hq]
    simp only
    have hrest := fun a b2 acc2 =>
      ih (fun n hn => hok n (List.mem_cons_of_mem m hn)) a b2 acc2
    by_cases hchain : (m.isCapture && !promoFlag m piece &&
        ((getValidMoves (postBoard board m piece) cur (some m.to')).any
          fun n => n.isCapture)) = true
    · have hcapture : m.isCapture = true := by
        rcases Bool.and_eq_true_iff.mp hchain with ⟨hl, _⟩
        exact (Bool.and_eq_true_iff.mp hl).1
      have hdecr : depth + pieceCount (postBoard board m piece) < fuel := by
        have := hcapdec hcapture
        omega
      obtain ⟨v, hv⟩ := Option.isSome_iff_exists.mp
        (IH (postBoard board m piece) depth alpha beta isMax (some m.to') hdecr)
      rw [if_pos hchain, hv]
      simp only
      cases isMax with
      | true =>
        simp only [if_true]
        split
        · rfl
        · exact hrest _ _ _
      | false =>
        simp only [Bool.false_eq_true, if_false]
        split
        · rfl
        · exact hrest _ _ _
    · have hdecr : (depth - 1) + pieceCount (postBoard board m piece) < fuel := by
        omega
      obtain ⟨v, hv⟩ := Option.isSome_iff_exists.mp
        (IH (postBoard board m piece) (depth - 1) alpha beta (!isMax) none hdecr)
      rw [if_neg hchain, hv]
      simp only
      cases isMax with
      | true =>
        simp only [if_true]
        split
        · rfl
        · exact hrest _ _ _
      | false =>
        simp only [Bool.false_eq_true, if_false]
        split
        · rfl
        · exact hrest _ _ _

/-- C6: the search recursion is well founded.  Chain-capture continuations
recurse at the same depth but only after a capture, which strictly decreases
the piece count, while turn-ending recursion decreases `depth`; hence any
fuel above `depth + pieceCount board` makes `minimax` return a value, for
every board, depth, alpha, beta, maximizing flag, bot identity and active
piece. -/
theorem minimax_terminates (fuel : Nat) (player : Player) (board : BoardState)
    (depth : Nat) (alpha beta : Ext) (maximizing : Bool)
    (activePiece : Option Position)
    (h : depth + pieceCount board < fuel) :
    (minimaxF player fuel board depth alpha beta maximizing activePiece).isSome
      = true := by
  induction fuel generalizing board depth alpha beta maximizing activePiece with
  | zero => omega
  | succ fuel ih =>
    rw [minimaxF]
    simp only
    split
    · rfl
    · next hterm =>
      have hdep : depth ≠ 0 := fun e => hterm (Or.inl e)
      by_cases hlen :
          (getValidMoves board (if maximizing then player else oppPlayer player)
            activePiece).length = 0
      · rw [if_pos hlen]
        rfl
      · rw [if_neg hlen]
        apply mmLoop_isSome player fuel board depth _ maximizing hdep (by omega)
          (fun b' d' a b2 mx ap hlt => ih b' d' a b2 mx ap hlt)
        exact fun m hm => getValidMoves_ok board _ _ m hm

/-- Witness for C6 at a concrete board, depth and fuel. -/
theorem minimax_terminates_witness :
    0 + pieceCount scenarioBoard < 3 ∧
    (minimaxF Player.Red 3 scenarioBoard 0 Ext.neginf Ext.posinf true none).isSome
      = true :=
  ⟨by decide,
    minimax_terminates 3 Player.Red scenarioBoard 0 Ext.neginf Ext.posinf true none
      (by decide)⟩

/-! ### C4: executeMove writes only to a fresh board -/

lemma append_single_getElem_ne {α : Type} (l : List α) (x : α) (j : Nat)
    (hj : j ≠ l.length) : (l ++ [x])[j]? = l[j]? := by
  rcases Nat.lt_or_ge j l.length with hlt | hge
  · exact List.getElem?_append_left hlt
  · rw [List.getElem?_eq_none (by simp; omega), List.getElem?_eq_none (by omega)]

lemma heapSetSq_ne (h : List BoardState) (i j : Nat) (hij : i ≠ j) (r c : Int)
    (v : Option Piece) : (heapSetSq h i r c v)[j]? = h[j]? := by
  unfold heapSetSq
  exact List.getElem?_set_ne hij

lemma heapSetSq_length (h : List BoardState) (i : Nat) (r c : Int)
    (v : Option Piece) : (heapSetSq h i r c v).length = h.length := by
  unfold heapSetSq
  simp

lemma boardAt_lt (h : List BoardState) (i : Nat) (hi : i < h.length) :
    boardAt h i = h[i] := by
  unfold boardAt
  rw [List.getElem?_eq_getElem hi]
  rfl

lemma boardAt_heapSetSq (h : List BoardState) (i : Nat) (hi : i < h.length)
    (r c : Int) (v : Option Piece) :
    boardAt (heapSetSq h i r c v) i = setSq (boardAt h i) r c v := by
  unfold heapSetSq
  rw [boardAt_lt _ i (by simpa using hi)]
  simp [List.getElem_set]

lemma postHeap_frame (h : List BoardState) (src : Nat) (m : Move) (piece : Piece)
    (j : Nat) (hj : j ≠ h.length) : (postHeap h src m piece)[j]? = h[j]? := by
  unfold postHeap
  simp only
  have hne := fun e : h.length = j => hj e.symm
  have happ := append_single_getElem_ne h (boardAt h src) j hj
  by_cases hpa : (promoFlag m piece && aliasAtTo m) = true
  · rw [if_pos hpa, heapSetSq_ne _ _ _ hne]
    cases hmc : m.isCapture with
    | true =>
      cases hcpv : m.capturedPiece with
      | some cp =>
        simp only
        rw [heapSetSq_ne _ _ _ hne, heapSetSq_ne _ _ _ hne,
          heapSetSq_ne _ _ _ hne, happ]
      | none =>
        simp only
        rw [heapSetSq_ne _ _ _ hne, heapSetSq_ne _ _ _ hne, happ]
    | false =>
      simp only
      rw [heapSetSq_ne _ _ _ hne, heapSetSq_ne _ _ _ hne, happ]
  · rw [if_neg hpa]
    cases hmc : m.isCapture with
    | true =>
      cases hcpv : m.capturedPiece with
      | some cp =>
        simp only
        rw [heapSetSq_ne _ _ _ hne, heapSetSq_ne _ _ _ hne,
          heapSetSq_ne _ _ _ hne, happ]
      | none =>
        simp only
        rw [heapSetSq_ne _ _ _ hne, heapSetSq_ne _ _ _ hne, happ]
    | false =>
      simp only
      rw [heapSetSq_ne _ _ _ hne, heapSetSq_ne _ _ _ hne, happ]

lemma boardAt_postHeap (h : List BoardState) (src : Nat) (m : Move) (piece : Piece) :
    boardAt (postHeap h src m piece) h.length = postBoard (boardAt h src) m piece := by
  have hb0 : boardAt (h ++ [boardAt h src]) h.length = boardAt h src := by
    unfold boardAt
    simp
  have hl0 : h.length < (h ++ [boardAt h src]).length := by simp
  have hl1 : h.length <
      (heapSetSq (h ++ [boardAt h src]) h.length m.to'.row m.to'.col
        (some piece)).length := by
    rw [heapSetSq_length]; exact hl0
  have hl2 : h.length <
      (heapSetSq (heapSetSq (h ++ [boardAt h src]) h.length m.to'.row m.to'.col
        (some piece)) h.length m.from'.row m.from'.col none).length := by
    rw [heapSetSq_length, heapSetSq_length]; exact hl0
  unfold postHeap postBoard
  simp only
  by_cases hpa : (promoFlag m piece && aliasAtTo m) = true
  · rw [if_pos hpa, if_pos hpa]
    cases hmc : m.isCapture with
    | true =>
      cases hcpv : m.capturedPiece with
      | some cp =>
        simp only
        rw [boardAt_heapSetSq _ _ (by rw [heapSetSq_length]; exact hl2),
          boardAt_heapSetSq _ _ hl2, boardAt_heapSetSq _ _ hl1,
          boardAt_heapSetSq _ _ hl0, hb0]
      | none =>
        simp only
        rw [boardAt_heapSetSq _ _ hl2, boardAt_heapSetSq _ _ hl1,
          boardAt_heapSetSq _ _ hl0, hb0]
    | false =>
      simp only
      rw [boardAt_heapSetSq _ _ hl2, boardAt_heapSetSq _ _ hl1,
        boardAt_heapSetSq _ _ hl0, hb0]
  · rw [if_neg hpa, if_neg hpa]
    cases hmc : m.isCapture with
    | true =>
      cases hcpv : m.capturedPiece with
      | some cp =>
        simp only
        rw [boardAt_heapSetSq _ _ hl2, boardAt_heapSetSq _ _ hl1,
          boardAt_heapSetSq _ _ hl0, hb0]
      | none =>
        simp only
        rw [boardAt_heapSetSq _ _ hl1, boardAt_heapSetSq _ _ hl0, hb0]
    | false =>
      simp only
      rw [boardAt_heapSetSq _ _ hl1, boardAt_heapSetSq _ _ hl0, hb0]

/-- C4: `executeMove` never mutates its input board.  In a heap of board
snapshots, it deep-copies the source board into a fresh slot and every
square write of the move application targets only that fresh slot, so the
source slot and every other slot read back unchanged afterwards, and the
fresh slot holds exactly the board that `executeMove` returns. -/
theorem executeMove_fresh (h : List BoardState) (src : Nat) (m : Move)
    (hsrc : src < h.length)
    (hocc : (getSq (boardAt h src) m.from'.row m.from'.col).isSome = true) :
    ∃ h' nid promoted, executeMoveH h src m = some (h', nid, promoted) ∧
      nid ≠ src ∧
      h'[src]? = h[src]? ∧
      (∀ j, j ≠ nid → h'[j]? = h[j]?) ∧
      executeMove (boardAt h src) m = some (boardAt h' nid, promoted) := by
  obtain ⟨piece, hq⟩ := Option.isSome_iff_exists.mp hocc
  have hb0 : boardAt (h ++ [boardAt h src]) h.length = boardAt h src := by
    unfold boardAt
    simp
  refine ⟨postHeap h src m piece, h.length, promoFlag m piece, ?_, by omega,
    postHeap_frame h src m piece src (by omega),
    fun j hj => postHeap_frame h src m piece j hj, ?_⟩
  · unfold executeMoveH
    rw [hb0, hq]
  · rw [executeMove_some hq, boardAt_postHeap]

/-- Witness for C4: a one-board heap and a concrete opening slide. -/
theorem executeMove_fresh_witness :
    0 < [createInitialBoard].length ∧
    (getSq (boardAt [createInitialBoard] 0) 6 1).isSome = true ∧
    ∃ h' nid promoted,
      executeMoveH [createInitialBoard] 0 ⟨⟨6, 1⟩, ⟨5, 0⟩, false, none⟩
        = some (h', nid, promoted) ∧
      nid ≠ 0 ∧
      h'[0]? = [createInitialBoard][0]? ∧
      (∀ j, j ≠ nid → h'[j]? = [createInitialBoard][j]?) ∧
      executeMove (boardAt [createInitialBoard] 0) ⟨⟨6, 1⟩, ⟨5, 0⟩, false, none⟩
        = some (boardAt h' nid, promoted) :=
  ⟨by decide, by decide,
    executeMove_fresh [createInitialBoard] 0 ⟨⟨6, 1⟩, ⟨5, 0⟩, false, none⟩
      (by decide) (by decide)⟩

/-! ### C9: the destination square is never validated -/

lemma position_eq_of (a b : Position) (h1 : a.row = b.row) (h2 : a.col = b.col) :
    a = b := by
  cases a
  cases b
  simp_all

lemma getSq_postBoard_to (b : BoardState) (m : Move) (p : Piece)
    (htv : isValidPos m.to'.row m.to'.col)
    (hne2 : ¬(m.to'.row = m.from'.row ∧ m.to'.col = m.from'.col))
    (hcp2 : ∀ cp, m.capturedPiece = some cp →
      ¬(m.to'.row = cp.row ∧ m.to'.col = cp.col)) :
    getSq (postBoard b m p) m.to'.row m.to'.col =
      some (if promoFlag m p && aliasAtTo m then ⟨p.player, PieceType.King⟩ else p) := by
  unfold postBoard
  simp only
  by_cases hpa : (promoFlag m p && aliasAtTo m) = true
  · rw [if_pos hpa, if_pos hpa, getSq_setSq_self _ _ _ _ htv]
  · rw [if_neg hpa, if_neg hpa]
    cases hmc : m.isCapture with
    | true =>
      cases hcpv : m.capturedPiece with
      | some cp =>
        simp only
        rw [getSq_setSq_ne _ _ _ _ _ _ (hcp2 cp hcpv),
          getSq_setSq_ne _ _ _ _ _ _ hne2, getSq_setSq_self _ _ _ _ htv]
      | none =>
        simp only
        rw [getSq_setSq_ne _ _ _ _ _ _ hne2, getSq_setSq_self _ _ _ _ htv]
    | false =>
      simp only
      rw [getSq_setSq_ne _ _ _ _ _ _ hne2, getSq_setSq_self _ _ _ _ htv]

/-- C9 (amended): `executeMove` never validates the destination square: for
every board and in-bounds move whose source and destination are both
occupied, provided the move is not self-degenerate (`from ≠ to` and
`capturedPiece ≠ to`), the call returns without error and the mover's piece
(possibly promoted) silently replaces the piece that occupied the
destination, even when `isCapture` is false. -/
theorem executeMove_overwrites_destination (b : BoardState) (m : Move)
    (hfv : isValidPos m.from'.row m.from'.col)
    (htv : isValidPos m.to'.row m.to'.col)
    (p q : Piece)
    (hfrom : getSq b m.from'.row m.from'.col = some p)
    (hto : getSq b m.to'.row m.to'.col = some q)
    (hne : m.from' ≠ m.to')
    (hcp : m.capturedPiece ≠ some m.to') :
    ∃ nb promoted p', executeMove b m = some (nb, promoted) ∧
      getSq nb m.to'.row m.to'.col = some p' ∧ p'.player = p.player := by
  have hne2 : ¬(m.to'.row = m.from'.row ∧ m.to'.col = m.from'.col) := by
    rintro ⟨e1, e2⟩
    exact hne (position_eq_of m.from' m.to' e1.symm e2.symm)
  have hcp2 : ∀ cp, m.capturedPiece = some cp →
      ¬(m.to'.row = cp.row ∧ m.to'.col = cp.col) := by
    rintro cp hcpv ⟨e1, e2⟩
    apply hcp
    rw [hcpv]
    exact congrArg some (position_eq_of cp m.to' e1.symm e2.symm)
  refine ⟨postBoard b m p, promoFlag m p,
    (if promoFlag m p && aliasAtTo m then ⟨p.player, PieceType.King⟩ else p),
    executeMove_some hfrom, getSq_postBoard_to b m p htv hne2 hcp2, ?_⟩
  split
  · rfl
  · rfl

/-- A board with a Red Man at (2,1) and a Black Man at (1,2). -/
def destBoard : BoardState := fun r c =>
  if r = 2 ∧ c = 1 then some ⟨Player.Red, PieceType.Man⟩
  else if r = 1 ∧ c = 2 then some ⟨Player.Black, PieceType.Man⟩
  else none

/-- C9 counterexample: with both `from = (2,1)` and `to = (1,2)` occupied
and in bounds, a move whose `capturedPiece` equals its destination makes
`executeMove` return successfully with the destination square left *empty* —
the moving piece does not occupy `to`, contradicting the claim as stated for
every such move. -/
theorem executeMove_destination_counterexample :
    isValidPos 2 1 ∧ isValidPos 1 2 ∧
    (getSq destBoard 2 1).isSome = true ∧
    (getSq destBoard 1 2).isSome = true ∧
    (executeMove destBoard ⟨⟨2, 1⟩, ⟨1, 2⟩, true, some ⟨1, 2⟩⟩).map
      (fun res => getSq res.1 1 2) = some none := by
  exact ⟨by decide, by decide, by decide, by decide, by decide⟩

/-- Witness for C9 at a concrete non-degenerate move onto an occupied
destination. -/
theorem executeMove_overwrites_destination_witness :
    isValidPos 2 1 ∧ isValidPos 1 2 ∧
    getSq destBoard 2 1 = some ⟨Player.Red, PieceType.Man⟩ ∧
    getSq destBoard 1 2 = some ⟨Player.Black, PieceType.Man⟩ ∧
    ∃ nb promoted p',
      executeMove destBoard ⟨⟨2, 1⟩, ⟨1, 2⟩, false, none⟩ = some (nb, promoted) ∧
      getSq nb 1 2 = some p' ∧
      p'.player = Piece.player ⟨Player.Red, PieceType.Man⟩ :=
  ⟨by decide, by decide, by decide, by decide,
    executeMove_overwrites_destination destBoard ⟨⟨2, 1⟩, ⟨1, 2⟩, false, none⟩
      (by decide) (by decide) ⟨Player.Red, PieceType.Man⟩ ⟨Player.Black, PieceType.Man⟩
      (by decide) (by decide) (by decide) (by decide)⟩

/-! ### C8: getBotMove consumes randomness -/

/-- A random source that always draws index 0 and leaves the order alone. -/
def rngFirst : BotRng where
  pickFloor := fun _ => 0
  pickLt := fun _ hn => hn
  shuffle := fun l => l

/-- A random source that always draws the last admissible index and reverses
the order. -/
def rngLast : BotRng where
  pickFloor := fun n => n - 1
  pickLt := fun n hn => by
    show n - 1 < n
    omega
  shuffle := fun l => l.reverse

/-- C8 counterexample: with identical board, player, difficulty and active
piece, two `getBotMove` calls at Easy return different moves under different
random draws — the operation is not a function of those four inputs alone. -/
theorem getBotMove_nondeterministic :
    getBotMove createInitialBoard Player.Red Difficulty.Easy none rngFirst ≠
      getBotMove createInitialBoard Player.Red Difficulty.Easy none rngLast := by
  decide

/-- C8 (amended): every operation is deterministic once the random draws are
made an explicit input; at Easy, `getBotMove` is a choice among the legal
moves: for every random source it returns `some` member of
`getValidMoves` whenever that list is nonempty. -/
theorem getBotMove_easy_legal (b : BoardState) (p : Player) (ap : Option Position)
    (rng : BotRng) (h : getValidMoves b p ap ≠ []) :
    ∃ m, getBotMove b p Difficulty.Easy ap rng = some m ∧
      m ∈ getValidMoves b p ap := by
  unfold getBotMove
  rcases hv : getValidMoves b p ap with _ | ⟨first, rest⟩
  · exact absurd hv h
  · simp only
    rw [if_pos trivial]
    have hlt := rng.pickLt (first :: rest).length (by simp)
    exact ⟨(first :: rest)[rng.pickFloor (first :: rest).length],
      List.getElem?_eq_getElem hlt, List.getElem_mem hlt⟩

/-- Witness for C8's amended statement on the initial board. -/
theorem getBotMove_easy_legal_witness :
    getValidMoves createInitialBoard Player.Red none ≠ [] ∧
    ∃ m, getBotMove createInitialBoard Player.Red Difficulty.Easy none rngFirst
        = some m ∧
      m ∈ getValidMoves createInitialBoard Player.Red none :=
  ⟨by decide,
    getBotMove_easy_legal createInitialBoard Player.Red none rngFirst (by decide)⟩

/-! ### C1: flying-king capture reach -/

lemma kingScan_succ (b : BoardState) (p : Player) (pos : Position) (d : Int × Int)
    (fuel : Nat) (r c : Int) (found : Bool) (opp : Option Position) :
    kingScan b pos p d (fuel + 1) r c found opp =
      kingScanBody b pos p d r c found opp (kingScan b pos p d fuel) := by
  rw [kingScan]

lemma kingScanBody_step_empty (b : BoardState) (p : Player) (pos : Position)
    (d : Int × Int) (r c : Int) (next : Int → Int → Bool → Option Position → List Move)
    (hv : isValidPos r c) (hsq : getSq b r c = none) :
    kingScanBody b pos p d r c false none next =
      ⟨pos, ⟨r, c⟩, false, none⟩ :: next (r + d.1) (c + d.2) false none := by
  unfold kingScanBody
  rw [if_pos hv, hsq]
  rfl

lemma kingScanBody_step_enemy (b : BoardState) (p : Player) (pos : Position)
    (d : Int × Int) (r c : Int) (next : Int → Int → Bool → Option Position → List Move)
    (q : Piece) (hv : isValidPos r c) (hsq : getSq b r c = some q)
    (hqp : q.player ≠ p) :
    kingScanBody b pos p d r c false none next =
      next (r + d.1) (c + d.2) true (some ⟨r, c⟩) := by
  unfold kingScanBody
  rw [if_pos hv, hsq]
  simp only [if_neg hqp]
  rfl

lemma kingScanBody_capture (b : BoardState) (p : Player) (pos : Position)
    (d : Int × Int) (r c : Int) (next : Int → Int → Bool → Option Position → List Move)
    (op : Position) (hv : isValidPos r c) (hsq : getSq b r c = none) :
    kingScanBody b pos p d r c true (some op) next =
      [⟨pos, ⟨r, c⟩, true, some op⟩] := by
  unfold kingScanBody
  rw [if_pos hv, hsq]
  rfl

/-- Every move produced by a ray scan lands on that ray, at or beyond the
current scan square. -/
lemma kingScan_ray (b : BoardState) (p : Player) (pos : Position) (d : Int × Int) :
    ∀ (fuel : Nat) (j r c : Int) (found : Bool) (opp : Option Position),
      r = pos.row + j * d.1 → c = pos.col + j * d.2 → 1 ≤ j →
      ∀ m ∈ kingScan b pos p d fuel r c found opp,
        ∃ k : Int, j ≤ k ∧ m.to'.row = pos.row + k * d.1 ∧
          m.to'.col = pos.col + k * d.2 := by
  intro fuel
  induction fuel with
  | zero =>
    intro j r c found opp _ _ _ m hm
    cases hm
  | succ fuel ih =>
    intro j r c found opp hr hc hj m hm
    rw [kingScan] at hm
    unfold kingScanBody at hm
    split at hm
    · split at hm
      · split at hm
        · split at hm
          · rcases List.mem_singleton.mp hm with rfl
            exact ⟨j, le_refl j, hr, hc⟩
          · rcases ih (j + 1) _ _ _ _ (by rw [hr]; ring) (by rw [hc]; ring)
              (by omega) m hm with ⟨k, hk, hh1, hh2⟩
            exact ⟨k, by omega, hh1, hh2⟩
        · rcases List.mem_cons.mp hm with rfl | hm'
          · exact ⟨j, le_refl j, hr, hc⟩
          · rcases ih (j + 1) _ _ _ _ (by rw [hr]; ring) (by rw [hc]; ring)
              (by omega) m hm' with ⟨k, hk, hh1, hh2⟩
            exact ⟨k, by omega, hh1, hh2⟩
      · split at hm
        · cases hm
        · split at hm
          · cases hm
          · rcases ih (j + 1) _ _ _ _ (by rw [hr]; ring) (by rw [hc]; ring)
              (by omega) m hm with ⟨k, hk, hh1, hh2⟩
            exact ⟨k, by omega, hh1, hh2⟩
    · cases hm

/-- The scan of a ray that holds one enemy piece at distance 3 with empty
squares before it and an empty landing square after it: two slides, then the
single capture onto the first square beyond the enemy, then the scan stops. -/
lemma kingScan_config (b : BoardState) (p : Player) (pos : Position) (d : Int × Int)
    (hv1 : isValidPos (pos.row + d.1) (pos.col + d.2))
    (hv2 : isValidPos (pos.row + 2 * d.1) (pos.col + 2 * d.2))
    (hv3 : isValidPos (pos.row + 3 * d.1) (pos.col + 3 * d.2))
    (hv4 : isValidPos (pos.row + 4 * d.1) (pos.col + 4 * d.2))
    (h1 : getSq b (pos.row + d.1) (pos.col + d.2) = none)
    (h2 : getSq b (pos.row + 2 * d.1) (pos.col + 2 * d.2) = none)
    (q : Piece) (hq3 : getSq b (pos.row + 3 * d.1) (pos.col + 3 * d.2) = some q)
    (hqp : q.player ≠ p)
    (h4 : getSq b (pos.row + 4 * d.1) (pos.col + 4 * d.2) = none) :
    kingScan b pos p d 8 (pos.row + d.1) (pos.col + d.2) false none =
      [⟨pos, ⟨pos.row + d.1, pos.col + d.2⟩, false, none⟩,
       ⟨pos, ⟨pos.row + 2 * d.1, pos.col + 2 * d.2⟩, false, none⟩,
       ⟨pos, ⟨pos.row + 4 * d.1, pos.col + 4 * d.2⟩, true,
         some ⟨pos.row + 3 * d.1, pos.col + 3 * d.2⟩⟩] := by
  have er2 : pos.row + d.1 + d.1 = pos.row + 2 * d.1 := by ring
  have ec2 : pos.col + d.2 + d.2 = pos.col + 2 * d.2 := by ring
  have er3 : pos.row + 2 * d.1 + d.1 = pos.row + 3 * d.1 := by ring
  have ec3 : pos.col + 2 * d.2 + d.2 = pos.col + 3 * d.2 := by ring
  have er4 : pos.row + 3 * d.1 + d.1 = pos.row + 4 * d.1 := by ring
  have ec4 : pos.col + 3 * d.2 + d.2 = pos.col + 4 * d.2 := by ring
  rw [show (8 : Nat) = 7 + 1 from rfl, kingScan_succ,
    kingScanBody_step_empty b p pos d _ _ _ hv1 h1, er2, ec2]
  congr 1
  rw [show (7 : Nat) = 6 + 1 from rfl, kingScan_succ,
    kingScanBody_step_empty b p pos d _ _ _ hv2 h2, er3, ec3]
  congr 1
  rw [show (6 : Nat) = 5 + 1 from rfl, kingScan_succ,
    kingScanBody_step_enemy b p pos d _ _ _ q hv3 hq3 hqp, er4, ec4]
  rw [show (5 : Nat) = 4 + 1 from rfl, kingScan_succ,
    kingScanBody_capture b p pos d _ _ _ _ hv4 h4]

lemma gatherMoves_none_mem (b : BoardState) (p : Player) (m : Move)
    (hm : m ∈ gatherMoves b p none) :
    ∃ s : Int × Int, s ∈ allSquares ∧ ∃ piece, getSq b s.1 s.2 = some piece ∧
      piece.player = p ∧ m ∈ getPieceMoves b ⟨s.1, s.2⟩ piece := by
  unfold gatherMoves at hm
  simp only at hm
  rcases List.mem_flatMap.mp hm with ⟨s, hs, hms⟩
  refine ⟨s, hs, ?_⟩
  split at hms
  · next piece hsq =>
    split at hms
    · next hp => exact ⟨piece, hsq, hp, hms⟩
    · cases hms
  · cases hms

lemma mem_getValidMoves_of_capture (b : BoardState) (p : Player) (pos : Position)
    (piece : Piece) (hsq : getSq b pos.row pos.col = some piece)
    (hp : piece.player = p) (m : Move) (hm : m ∈ getPieceMoves b pos piece)
    (hc : m.isCapture = true) : m ∈ getValidMoves b p none := by
  have hvpos := getSq_isSome_valid hsq
  have hg : m ∈ gatherMoves b p none := by
    unfold gatherMoves
    simp only
    refine List.mem_flatMap.mpr ⟨(pos.row, pos.col),
      (mem_allSquares _ _).mpr hvpos, ?_⟩
    simp only [hsq, if_pos hp]
    exact hm
  unfold getValidMoves
  simp only
  have hfm : m ∈ List.filter (fun m => m.isCapture) (gatherMoves b p none) :=
    List.mem_filter.mpr ⟨hg, hc⟩
  rw [if_pos (List.length_pos_of_mem hfm)]
  exact hfm

/-- C1 (amended): for a king of player `p` with exactly one enemy piece at
distance 3 on a diagonal ray (the two squares before it empty) and two empty
in-bounds squares beyond it, `legalMoves` contains the capture landing on the
*first* empty square beyond the captured piece, but — because the scan stops
immediately after that landing — no move of the king reaches the second empty
square, and a fortiori nothing beyond a further obstruction. -/
theorem flying_king_capture_reach (b : BoardState) (p : Player) (pos : Position)
    (d : Int × Int) (hd : d ∈ kingDirections)
    (hking : getSq b pos.row pos.col = some ⟨p, PieceType.King⟩)
    (hv5 : isValidPos (pos.row + 5 * d.1) (pos.col + 5 * d.2))
    (h1 : getSq b (pos.row + d.1) (pos.col + d.2) = none)
    (h2 : getSq b (pos.row + 2 * d.1) (pos.col + 2 * d.2) = none)
    (q : Piece) (hq3 : getSq b (pos.row + 3 * d.1) (pos.col + 3 * d.2) = some q)
    (hqp : q.player ≠ p)
    (h4 : getSq b (pos.row + 4 * d.1) (pos.col + 4 * d.2) = none)
    (h5 : getSq b (pos.row + 5 * d.1) (pos.col + 5 * d.2) = none) :
    (⟨pos, ⟨pos.row + 4 * d.1, pos.col + 4 * d.2⟩, true,
        some ⟨pos.row + 3 * d.1, pos.col + 3 * d.2⟩⟩ : Move) ∈
      getValidMoves b p none ∧
    ∀ m ∈ getValidMoves b p none, m.from' = pos →
      m.to' ≠ ⟨pos.row + 5 * d.1, pos.col + 5 * d.2⟩ := by
  have hvpos : isValidPos pos.row pos.col := getSq_isSome_valid hking
  have hd' : d = ((-1 : Int), (-1 : Int)) ∨ d = (-1, 1) ∨ d = (1, -1) ∨ d = (1, 1) := by
    simpa [kingDirections] using hd
  have hd1 : d.1 = 1 ∨ d.1 = -1 := by
    rcases hd' with rfl | rfl | rfl | rfl <;> simp
  have hd2 : d.2 = 1 ∨ d.2 = -1 := by
    rcases hd' with rfl | rfl | rfl | rfl <;> simp
  have hval : ∀ k : Int, 0 ≤ k → k ≤ 5 →
      isValidPos (pos.row + k * d.1) (pos.col + k * d.2) := by
    intro k hk0 hk5
    obtain e1 | e1 := hd1 <;> obtain e2 | e2 := hd2 <;>
      rw [e1, e2] at hv5 ⊢ <;>
      unfold isValidPos at hvpos hv5 ⊢ <;>
      omega
  have hv1 : isValidPos (pos.row + d.1) (pos.col + d.2) := by
    have := hval 1 (by norm_num) (by norm_num)
    simpa using this
  have hconfig := kingScan_config b p pos d hv1
    (hval 2 (by norm_num) (by norm_num)) (hval 3 (by norm_num) (by norm_num))
    (hval 4 (by norm_num) (by norm_num)) h1 h2 q hq3 hqp h4
  constructor
  · apply mem_getValidMoves_of_capture b p pos ⟨p, PieceType.King⟩ hking rfl
    · unfold getPieceMoves
      rw [if_neg (by simp)]
      unfold getKingMoves
      refine List.mem_flatMap.mpr ⟨d, hd, ?_⟩
      rw [hconfig]
      simp
    · rfl
  · intro m hm hfrom heq
    have hg := getValidMoves_sub b p none m hm
    obtain ⟨s, hs, piece, hsq, hp, hmp⟩ := gatherMoves_none_mem b p m hg
    have hfrom2 : (⟨s.1, s.2⟩ : Position) = pos := by
      have hf := (getPieceMoves_ok b ⟨s.1, s.2⟩ piece p hsq hp m hmp).1
      rw [← hf]
      exact hfrom
    have hs1 : s.1 = pos.row := congrArg Position.row hfrom2
    have hs2 : s.2 = pos.col := congrArg Position.col hfrom2
    rw [hs1, hs2] at hsq
    have hpiece : piece = ⟨p, PieceType.King⟩ :=
      Option.some.inj (hsq.symm.trans hking)
    subst hpiece
    rw [hfrom2] at hmp
    have hkm : m ∈ getKingMoves b pos p := by
      unfold getPieceMoves at hmp
      rw [if_neg (by simp)] at hmp
      exact hmp
    unfold getKingMoves at hkm
    rcases List.mem_flatMap.mp hkm with ⟨e, he, hscan⟩
    have hray := kingScan_ray b p pos e 8 1 _ _ false none
      (by ring) (by ring) (by norm_num) m hscan
    obtain ⟨k, hk, hkr, hkc⟩ := hray
    have her : m.to'.row = pos.row + 5 * d.1 := by rw [heq]
    have hec : m.to'.col = pos.col + 5 * d.2 := by rw [heq]
    rw [hkr] at her
    rw [hkc] at hec
    by_cases hdd : e = d
    · rw [hdd] at hscan
      rw [hconfig] at hscan
      simp only [List.mem_cons, List.mem_singleton, List.not_mem_nil, or_false]
        at hscan
      obtain e1 | e1 := hd1 <;>
        rcases hscan with rfl | rfl | rfl <;>
        (have hrow := congrArg Position.row heq) <;>
        simp only at hrow <;>
        rw [e1] at hrow <;>
        omega
    · have heta : d = (d.1, d.2) := rfl
      have hee : e = ((-1 : Int), (-1 : Int)) ∨ e = (-1, 1) ∨ e = (1, -1) ∨
          e = (1, 1) := by
        simpa [kingDirections] using he
      rcases hee with rfl | rfl | rfl | rfl <;>
        obtain e1 | e1 := hd1 <;> obtain e2 | e2 := hd2 <;>
        rw [e1] at her <;> rw [e2] at hec <;>
        dsimp only at her hec <;>
        first
          | omega
          | (rw [e1, e2] at heta; exact hdd heta.symm)

/-- Witness for C1's amended statement on a concrete board: the Red king at
(5,0), the Black Man at (2,3), landing squares (1,4) and (0,5) empty. -/
theorem flying_king_capture_reach_witness :
    ((-1 : Int), (1 : Int)) ∈ kingDirections ∧
    getSq flyingKingBoard 5 0 = some ⟨Player.Red, PieceType.King⟩ ∧
    isValidPos (5 + 5 * (-1)) (0 + 5 * 1) ∧
    getSq flyingKingBoard (5 + (-1)) (0 + 1) = none ∧
    getSq flyingKingBoard (5 + 2 * (-1)) (0 + 2 * 1) = none ∧
    getSq flyingKingBoard (5 + 3 * (-1)) (0 + 3 * 1)
      = some ⟨Player.Black, PieceType.Man⟩ ∧
    getSq flyingKingBoard (5 + 4 * (-1)) (0 + 4 * 1) = none ∧
    getSq flyingKingBoard (5 + 5 * (-1)) (0 + 5 * 1) = none ∧
    ((⟨⟨5, 0⟩, ⟨5 + 4 * (-1), 0 + 4 * 1⟩, true,
        some ⟨5 + 3 * (-1), 0 + 3 * 1⟩⟩ : Move) ∈
      getValidMoves flyingKingBoard Player.Red none ∧
    ∀ m ∈ getValidMoves flyingKingBoard Player.Red none, m.from' = ⟨5, 0⟩ →
      m.to' ≠ ⟨5 + 5 * (-1), 0 + 5 * 1⟩) :=
  ⟨by decide, by decide, by decide, by decide, by decide, by decide, by decide,
    by decide,
    flying_king_capture_reach flyingKingBoard Player.Red ⟨5, 0⟩ (-1, 1)
      (by decide) (by decide) (by decide) (by decide) (by decide)
      ⟨Player.Black, PieceType.Man⟩ (by decide) (by decide) (by decide)
      (by decide)⟩

/-- C1 counterexample: on `flyingKingBoard` the capture landing on the first
empty square (1,4) beyond the Black Man is generated, but no legal move lands
on the second empty square (0,5) — `legalMoves` does not include captures
landing on *both* empty squares beyond the captured piece. -/
theorem flying_king_both_landings_counterexample :
    (⟨⟨5, 0⟩, ⟨1, 4⟩, true, some ⟨2, 3⟩⟩ : Move) ∈
      getValidMoves flyingKingBoard Player.Red none ∧
    ∀ m ∈ getValidMoves flyingKingBoard Player.Red none, m.to' ≠ ⟨0, 5⟩ := by
  constructor
  · decide
  · decide

end MakHos
